import Mathlib

/-!
Verification of the static-site index generator
(`.github/actions/static-site-index-gen/src/main.ts`).

The TypeScript source is shallowly embedded below: strings are Lean
`String`s (lists of characters), the filesystem is an inductive tree,
the glob matcher `minimatch` is an abstract boolean-valued parameter,
and the side-effecting walk is rendered as a pure function threading the
`stats` record and accumulating the files it writes together with the
`DirectoryIndex` records it assembles.
-/

/-! ## Character-level string utilities -/

/-- Global single-character replacement: the embedding of a JavaScript
`str.replace(/c/g, r)` call whose pattern is the single character `c`. -/
def replaceAllChar (c : Char) (r : List Char) (s : List Char) : List Char :=
  s.flatMap fun x => if x = c then r else [x]

/-- `escapeHtml` from the source: four sequential global replacements,
ampersand first. -/
def escapeHtml (s : String) : String :=
  ⟨replaceAllChar '"' "&quot;".data <|
    replaceAllChar '>' "&gt;".data <|
      replaceAllChar '<' "&lt;".data <|
        replaceAllChar '&' "&amp;".data s.data⟩

/-- Decimal digit character for `d % 10`. -/
def digitChar (d : Nat) : Char :=
  if d % 10 = 0 then '0'
  else if d % 10 = 1 then '1'
  else if d % 10 = 2 then '2'
  else if d % 10 = 3 then '3'
  else if d % 10 = 4 then '4'
  else if d % 10 = 5 then '5'
  else if d % 10 = 6 then '6'
  else if d % 10 = 7 then '7'
  else if d % 10 = 8 then '8'
  else '9'

/-- Fuel-driven decimal rendering; the fuel `n + 1` always suffices. -/
def natReprAux : Nat → Nat → List Char
  | 0, _ => []
  | fuel + 1, n =>
    if n < 10 then [digitChar n]
    else natReprAux fuel (n / 10) ++ [digitChar (n % 10)]

/-- Decimal rendering of a natural number, the embedding of JavaScript
number-to-string interpolation for the non-negative integers that occur
(file sizes and counters). -/
def natRepr (n : Nat) : String :=
  ⟨natReprAux (n + 1) n⟩

/-- Characters JavaScript `String.prototype.trim` removes, restricted to
the ASCII whitespace that can appear in an action input. -/
def isTrimChar (c : Char) : Bool :=
  c = ' ' || c = '\t' || c = '\n' || c = '\r'

/-- Embedding of `String.prototype.trim`. -/
def jsTrim (s : String) : String :=
  ⟨((s.data.dropWhile isTrimChar).reverse.dropWhile isTrimChar).reverse⟩

/-- Split a character list at every character satisfying `p`
(the embedding of `String.prototype.split` with a character-class
regular expression). -/
def splitOnPred (p : Char → Bool) : List Char → List (List Char)
  | [] => [[]]
  | c :: rest =>
    match splitOnPred p rest with
    | [] => if p c then [[], []] else [[c]]
    | g :: gs => if p c then [] :: g :: gs else (c :: g) :: gs

/-- Characters after the last slash (the embedding of Node
`path.basename` for the slash-joined relative paths that occur; the
caller special-cases the root path `"/"`). -/
def basenameAux : List Char → List Char → List Char
  | acc, [] => acc
  | acc, c :: rest => if c = '/' then basenameAux [] rest else basenameAux (acc ++ [c]) rest

/-- Embedding of Node `path.basename` on the path shapes the walker
produces: either the root string `"/"` (basename `""`) or a nonempty
slash-joined relative path with no trailing slash. -/
def basename (s : String) : String :=
  if s = "/" then "" else ⟨basenameAux [] s.data⟩

/-- Join path segments with `"/"`: the embedding of the value Node
`path.relative(rootDir, dir)` returns for a directory `dir` that lies
`segs` below `rootDir` (empty list, hence empty string, for the root). -/
def relJoin : List String → String
  | [] => ""
  | [s] => s
  | s :: rest => s ++ "/" ++ relJoin rest

/-- Replace the first occurrence of `pat` (a nonempty literal pattern) by
`rep`: the embedding of JavaScript `str.replace(pat, rep)` with string
arguments. The `$`-substitution sequences of the replacement string are
not modelled; no property proved here depends on them. -/
def replaceFirstAux (pat rep : List Char) : List Char → List Char
  | [] => []
  | c :: rest =>
    if pat.isPrefixOf (c :: rest) then rep ++ (c :: rest).drop pat.length
    else c :: replaceFirstAux pat rep rest

/-- `replaceFirst s pat rep` is `s.replace(pat, rep)` (first occurrence
only, as JavaScript does for a string pattern). -/
def replaceFirst (s pat rep : String) : String :=
  ⟨replaceFirstAux pat.data rep.data s.data⟩

/-! ## Renderer helpers: sizes and dates -/

/-- `(n / d).toFixed(1)` for the exact binary divisors 1024 and 1024².
The quotient is exactly representable as a double (the divisor is a
power of two and file sizes are below 2^53), and `toFixed(1)` picks the
integer `t` minimising `|t / 10 - n / d|`, taking the larger `t` on a
tie, i.e. `t = ⌊(10 n / d) + 1 / 2⌋ = (20 n + d) / (2 d)` over ℕ. -/
def toFixed1 (n d : Nat) : String :=
  let t := (20 * n + d) / (2 * d)
  natRepr (t / 10) ++ "." ++ natRepr (t % 10)

/-- `formatFileSize` from the source. -/
def formatFileSize (bytes : Nat) : String :=
  if bytes < 1024 then natRepr bytes ++ " B"
  else if bytes < 1024 * 1024 then toFixed1 bytes 1024 ++ " KB"
  else toFixed1 bytes (1024 * 1024) ++ " MB"

/-- Short month name used by `toLocaleDateString` with an `en-US`
locale and a short month style. -/
def monthShort : Nat → String
  | 1 => "Jan"
  | 2 => "Feb"
  | 3 => "Mar"
  | 4 => "Apr"
  | 5 => "May"
  | 6 => "Jun"
  | 7 => "Jul"
  | 8 => "Aug"
  | 9 => "Sep"
  | 10 => "Oct"
  | 11 => "Nov"
  | 12 => "Dec"
  | _ => "???"

/-- Numeric value of a decimal digit character, if it is one. -/
def charDigit (c : Char) : Option Nat :=
  if 48 ≤ c.toNat ∧ c.toNat ≤ 57 then some (c.toNat - 48) else none

/-- Parse the leading `YYYY-MM-DD` of an ISO-8601 timestamp, requiring a
plausible month and day as JavaScript date parsing does. -/
def parseIsoDate (l : List Char) : Option (Nat × Nat × Nat) :=
  match l with
  | y1 :: y2 :: y3 :: y4 :: '-' :: m1 :: m2 :: '-' :: d1 :: d2 :: rest =>
    match charDigit y1, charDigit y2, charDigit y3, charDigit y4,
          charDigit m1, charDigit m2, charDigit d1, charDigit d2 with
    | some a, some b, some c, some d, some e, some f, some g, some h =>
      let y := ((a * 10 + b) * 10 + c) * 10 + d
      let m := e * 10 + f
      let dd := g * 10 + h
      if (rest = [] ∨ rest.head? = some 'T') ∧ 1 ≤ m ∧ m ≤ 12 ∧ 1 ≤ dd ∧ dd ≤ 31
      then some (y, m, dd) else none
    | _, _, _, _, _, _, _, _ => none
  | _ => none

/-- `formatDate` from the source. Models
`new Date(isoString).toLocaleDateString(enUS, numeric year, short month,
numeric day)` by rendering the UTC calendar date of a well-formed
ISO-8601 UTC timestamp; anything unparsable renders as the JavaScript
result `"Invalid Date"`. -/
def formatDate (isoString : String) : String :=
  match parseIsoDate isoString.data with
  | some (y, m, d) => monthShort m ++ " " ++ natRepr d ++ ", " ++ natRepr y
  | none => "Invalid Date"

/-! ## Data model -/

/-- The `type` field of a `FileEntry`: `'file' | 'directory'`. -/
inductive EntryType where
  | file
  | directory
deriving DecidableEq, Repr

/-- `FileEntry` from the source; the optional `size` and `modified`
fields are `Option`s. -/
structure FileEntry where
  name : String
  type : EntryType
  size : Option Nat
  modified : Option String
  path : String
deriving DecidableEq, Repr

/-- `DirectoryIndex` from the source. -/
structure DirectoryIndex where
  path : String
  entries : List FileEntry
  generated : String
deriving DecidableEq, Repr

/-- The process-scoped counters from `run`. -/
structure Stats where
  generatedCount : Nat
  directoriesScanned : Nat
deriving DecidableEq, Repr

/-! ## The collation model and entry sorting -/

/-- Fold uppercase ASCII onto lowercase (collation primary key). -/
def caseFold (c : Char) : Char :=
  if 65 ≤ c.toNat ∧ c.toNat ≤ 90 then Char.ofNat (c.toNat + 32) else c

/-- Collation case weight: lowercase before uppercase, everything else
neutral. -/
def caseRank (c : Char) : Nat :=
  if 65 ≤ c.toNat ∧ c.toNat ≤ 90 then 1 else 0

/-- Lexicographic comparison of key lists, shorter prefixes first. -/
def cmpNatList : List Nat → List Nat → Ordering
  | [], [] => .eq
  | [], _ :: _ => .lt
  | _ :: _, [] => .gt
  | a :: as, b :: bs => (compare a b).then (cmpNatList as bs)

/-- Model of JavaScript `a.localeCompare(b)` under the default `en-US`
ICU collation, restricted to ASCII: a primary pass compares the
case-folded strings, and on a primary tie a case pass puts lowercase
before uppercase. -/
def localeCompare (a b : String) : Ordering :=
  (cmpNatList (a.data.map fun c => (caseFold c).toNat)
      (b.data.map fun c => (caseFold c).toNat)).then
    (cmpNatList (a.data.map caseRank) (b.data.map caseRank))

/-- The comparator passed to `entries.sort` in `walkAndGenerate`:
directories sort before files, same-type entries by `localeCompare` of
their names. -/
def compareEntries (a b : FileEntry) : Ordering :=
  if a.type ≠ b.type then (if a.type = .directory then .lt else .gt)
  else localeCompare a.name b.name

/-- The non-strict order induced by the comparator. -/
def entryLE (a b : FileEntry) : Prop :=
  compareEntries a b ≠ .gt

instance : DecidableRel entryLE :=
  fun a b => inferInstanceAs (Decidable (compareEntries a b ≠ .gt))

/-- `entries.sort(comparator)` from the source, modelled as a stable
sort by the comparator (JavaScript `Array.prototype.sort` is stable and
produces a sorted permutation for this consistent comparator). -/
def sortEntries (l : List FileEntry) : List FileEntry :=
  List.insertionSort entryLE l

/-! ## Pattern filter -/

/-- `parseIgnorePatterns` from the source: split the raw input on
newlines and commas, trim, drop empties and `#` comments. -/
def parseIgnorePatterns (input : String) : List String :=
  if input = "" then []
  else
    (((splitOnPred (fun c => c = '\n' || c = ',') input.data).map
        fun l => jsTrim ⟨l⟩).filter
      fun p => p ≠ "" && !("#".data.isPrefixOf p.data))

/-- Normalize Windows separators, as `shouldIgnore` does first. -/
def normSlashes (s : String) : String :=
  ⟨s.data.map fun c => if c = '\\' then '/' else c⟩

/-- `shouldIgnore` from the source, parameterized by the glob matcher:
`mm path pattern` stands for `minimatch(path, pattern, dot := true)`,
which this development treats as an abstract boolean function. A path is
ignored when any pattern matches the normalized path or its basename. -/
def shouldIgnore (mm : String → String → Bool) (relativePath : String)
    (patterns : List String) : Bool :=
  let normalizedPath := normSlashes relativePath
  patterns.any fun pattern =>
    mm normalizedPath pattern || mm (basename normalizedPath) pattern

/-! ## Renderer -/

/-- One `<tr>` of the listing, the body of the `index.entries.map` in
`generateHtml`. -/
def rowHtml (entry : FileEntry) : String :=
  let icon := if entry.type = .directory then "📁" else "📄"
  let href := if entry.type = .directory then entry.name ++ "/" else entry.name
  let sizeCell := match entry.size with
    | some n => formatFileSize n
    | none => "-"
  let dateCell := match entry.modified with
    | some m => formatDate m
    | none => "-"
  "    <tr>\n      <td>" ++ icon ++ "</td>\n      <td><a href=\"" ++
    escapeHtml href ++ "\">" ++ escapeHtml entry.name ++
    (if entry.type = .directory then "/" else "") ++
    "</a></td>\n      <td class=\"size\">" ++ sizeCell ++
    "</td>\n      <td class=\"date\">" ++ dateCell ++ "</td>\n    </tr>"

/-- `rows.join(newline)` from the source. -/
def joinLines : List String → String
  | [] => ""
  | [s] => s
  | s :: rest => s ++ "\n" ++ joinLines rest

/-- The synthetic parent row of `generateHtml`, emitted whenever the
index path differs from `"/"`. -/
def parentLinkHtml (p : String) : String :=
  if p ≠ "/" then
    "    <tr>\n      <td>📁</td>\n      <td><a href=\"../\">../</a></td>\n      <td class=\"size\">-</td>\n      <td class=\"date\">-</td>\n    </tr>\n"
  else ""

/-- `getDefaultStyles` from the source (braces written as `\x7b`/`\x7d`
escapes, apostrophes as `\x27`). -/
def getDefaultStyles : String :=
  "<style>\n    :root \x7b\n      --bg: #1a1a2e;\n      --fg: #eef;\n      --link: #64b5f6;\n      --border: #333;\n    \x7d\n    body \x7b\n      font-family: -apple-system, BlinkMacSystemFont, \x27Segoe UI\x27, Roboto, monospace;\n      background: var(--bg);\n      color: var(--fg);\n      max-width: 900px;\n      margin: 2rem auto;\n      padding: 0 1rem;\n    \x7d\n    h1 \x7b border-bottom: 1px solid var(--border); padding-bottom: 0.5rem; \x7d\n    table \x7b width: 100%; border-collapse: collapse; \x7d\n    th, td \x7b text-align: left; padding: 0.5rem; border-bottom: 1px solid var(--border); \x7d\n    th:first-child, td:first-child \x7b width: 2rem; text-align: center; \x7d\n    .size, .date \x7b text-align: right; color: #888; font-size: 0.9rem; \x7d\n    a \x7b color: var(--link); text-decoration: none; \x7d\n    a:hover \x7b text-decoration: underline; \x7d\n    footer \x7b margin-top: 2rem; color: #666; font-size: 0.8rem; \x7d\n  </style>"

/-- `generateHtml` from the source. -/
def generateHtml (index : DirectoryIndex) (stylesheet : String)
    (titleTemplate : String) : String :=
  let title := replaceFirst titleTemplate "{path}" index.path
  let stylesheetLink :=
    if stylesheet ≠ "" then
      "<link rel=\"stylesheet\" href=\"" ++ escapeHtml stylesheet ++ "\">"
    else getDefaultStyles
  let rows := joinLines (index.entries.map rowHtml)
  let parentLink := parentLinkHtml index.path
  "<!DOCTYPE html>\n<html lang=\"en\">\n<head>\n  <meta charset=\"UTF-8\">\n  <meta name=\"viewport\" content=\"width=device-width, initial-scale=1.0\">\n  <title>" ++
    escapeHtml title ++ "</title>\n  " ++ stylesheetLink ++
    "\n</head>\n<body>\n  <h1>" ++ escapeHtml title ++
    "</h1>\n  <table>\n    <thead>\n      <tr>\n        <th></th>\n        <th>Name</th>\n        <th>Size</th>\n        <th>Modified</th>\n      </tr>\n    </thead>\n    <tbody>\n" ++
    parentLink ++ rows ++
    "\n    </tbody>\n  </table>\n  <footer>\n    <p>Generated " ++
    formatDate index.generated ++
    "</p>\n  </footer>\n</body>\n</html>"

/-- JSON string literal escaping as `JSON.stringify` performs it for the
characters that occur here (quote, backslash, and the common control
characters). -/
def jsonEscape (s : String) : String :=
  ⟨s.data.flatMap fun c =>
    if c = '"' then ['\\', '"']
    else if c = '\\' then ['\\', '\\']
    else if c = '\n' then ['\\', 'n']
    else if c = '\r' then ['\\', 'r']
    else if c = '\t' then ['\\', 't']
    else [c]⟩

/-- A JSON string literal. -/
def jsonStr (s : String) : String :=
  "\"" ++ jsonEscape s ++ "\""

/-- One entry of the `entries` array as `JSON.stringify(index, null, 2)`
prints it: insertion-ordered keys `name`, `type`, `path`, then `size`
and `modified` when present. -/
def entryJson (e : FileEntry) : String :=
  "    \x7b\n      \"name\": " ++ jsonStr e.name ++
    ",\n      \"type\": " ++
    jsonStr (if e.type = .directory then "directory" else "file") ++
    ",\n      \"path\": " ++ jsonStr e.path ++
    (match e.size with
     | some n => ",\n      \"size\": " ++ natRepr n
     | none => "") ++
    (match e.modified with
     | some m => ",\n      \"modified\": " ++ jsonStr m
     | none => "") ++
    "\n    \x7d"

/-- `JSON.stringify(index, null, 2)` from the source. -/
def jsonStringify (index : DirectoryIndex) : String :=
  "\x7b\n  \"path\": " ++ jsonStr index.path ++
    ",\n  \"entries\": " ++
    (if index.entries = [] then "[]"
     else "[\n" ++ joinLines (index.entries.map entryJson) ++ "\n  ]") ++
    ",\n  \"generated\": " ++ jsonStr index.generated ++ "\n\x7d"

/-! ## Filesystem model and the tree walker

The filesystem seen by the walker is a finite tree. `FSEntries` is the
ordered result of `fs.readdirSync(dir, withFileTypes)`; a child is
either a regular file carrying the `stat` data the walker may read
(byte size and ISO-8601 mtime) or a subdirectory with its own listing.

The walker writes files and mutates `stats`; here it returns the final
counters, the ordered list of files written (as root-relative segment
lists paired with contents), and — as an observer of the claims about
"every DirectoryIndex produced" — the list of assembled
`DirectoryIndex` records, children before their parent, exactly in
assembly order. The `generated` timestamp (`new Date().toISOString()`)
is threaded as a parameter. -/

mutual
inductive FSNode where
  | file (size : Nat) (mtime : String) : FSNode
  | dir (children : FSEntries) : FSNode
deriving DecidableEq

inductive FSEntries where
  | nil : FSEntries
  | cons (name : String) (child : FSNode) (rest : FSEntries) : FSEntries
deriving DecidableEq
end

/-- Result of one `walkAndGenerate` call. -/
structure WalkOut where
  stats : Stats
  writes : List (List String × String)
  indices : List DirectoryIndex
deriving DecidableEq

/-- State of the entry-collection loop of `walkAndGenerate`: the
entries collected so far plus the accumulated effects of the recursive
calls made while iterating. -/
structure CollectOut where
  entries : List FileEntry
  stats : Stats
  writes : List (List String × String)
  indices : List DirectoryIndex
deriving DecidableEq

/-- `path.relative(rootDir, dir) || slash` as computed at the top of
`walkAndGenerate`: the empty relative path of the root is coalesced to
`"/"`. -/
def relString (rel : List String) : String :=
  if relJoin rel = "" then "/" else relJoin rel

/-- The tail of `walkAndGenerate` after the entry-collection loop:
sort the entries, assemble the `DirectoryIndex`, then write the HTML
and/or JSON outputs, bumping `generatedCount` once per file written. -/
def finishDir (rel : List String) (outputFormat stylesheet : String)
    (titleTemplate : String) (generated : String) (c : CollectOut) : WalkOut :=
  let relativePath := relString rel
  let entries := sortEntries c.entries
  let index : DirectoryIndex :=
    { path := if relativePath = "" then "/" else "/" ++ relativePath,
      entries := entries,
      generated := generated }
  let afterHtml :=
    if outputFormat = "html" || outputFormat = "both" then
      ({ c.stats with generatedCount := c.stats.generatedCount + 1 },
        [(rel ++ ["index.html"], generateHtml index stylesheet titleTemplate)])
    else (c.stats, ([] : List (List String × String)))
  let afterJson :=
    if outputFormat = "json" || outputFormat = "both" then
      ({ afterHtml.1 with generatedCount := afterHtml.1.generatedCount + 1 },
        [(rel ++ ["index.json"], jsonStringify index)])
    else (afterHtml.1, ([] : List (List String × String)))
  { stats := afterJson.1,
    writes := c.writes ++ afterHtml.2 ++ afterJson.2,
    indices := c.indices ++ [index] }

/-- The entry-collection loop of `walkAndGenerate` (`for item of items`).
Children named `index.html`/`index.json` and ignored children are
skipped; surviving children become `FileEntry`s (files get `stat`
metadata when requested); subdirectories are recursed into in place.
The body of `walkAndGenerate` for a subdirectory is inlined here (the
ignore check, the `directoriesScanned` bump, the nested loop, and
`finishDir`) so that the recursion is structural; the lemma
`walkItems_cons_dir` below recovers the recursive call of the source. -/
def walkItems (mm : String → String → Bool) (items : FSEntries)
    (rel : List String) (ignorePatterns : List String)
    (outputFormat stylesheet : String) (includeMetadata : Bool)
    (titleTemplate : String) (generated : String) (stats : Stats) : CollectOut :=
  match items with
  | .nil => { entries := [], stats := stats, writes := [], indices := [] }
  | .cons name child rest =>
    let itemRel := relJoin (rel ++ [name])
    if name = "index.html" || name = "index.json" then
      walkItems mm rest rel ignorePatterns outputFormat stylesheet
        includeMetadata titleTemplate generated stats
    else if shouldIgnore mm itemRel ignorePatterns then
      walkItems mm rest rel ignorePatterns outputFormat stylesheet
        includeMetadata titleTemplate generated stats
    else
      let entry : FileEntry :=
        { name := name,
          type := match child with
            | .dir _ => .directory
            | .file _ _ => .file,
          size := match child, includeMetadata with
            | .file sz _, true => some sz
            | _, _ => none,
          modified := match child, includeMetadata with
            | .file _ mt, true => some mt
            | _, _ => none,
          path := itemRel }
      let sub : WalkOut :=
        match child with
        | .dir cs =>
          if shouldIgnore mm (relString (rel ++ [name])) ignorePatterns then
            { stats := stats, writes := [], indices := [] }
          else
            finishDir (rel ++ [name]) outputFormat stylesheet titleTemplate
              generated
              (walkItems mm cs (rel ++ [name]) ignorePatterns outputFormat
                stylesheet includeMetadata titleTemplate generated
                { stats with directoriesScanned := stats.directoriesScanned + 1 })
        | .file _ _ => { stats := stats, writes := [], indices := [] }
      let restOut :=
        walkItems mm rest rel ignorePatterns outputFormat stylesheet
          includeMetadata titleTemplate generated sub.stats
      { entries := entry :: restOut.entries,
        stats := restOut.stats,
        writes := sub.writes ++ restOut.writes,
        indices := sub.indices ++ restOut.indices }

/-- `walkAndGenerate` from the source, for the directory whose listing
is `children` and whose path relative to the scan root is the segment
list `rel` (`[]` for the root itself). -/
def walkAndGenerate (mm : String → String → Bool) (children : FSEntries)
    (rel : List String) (ignorePatterns : List String)
    (outputFormat stylesheet : String) (includeMetadata : Bool)
    (titleTemplate : String) (generated : String) (stats : Stats) : WalkOut :=
  if shouldIgnore mm (relString rel) ignorePatterns then
    { stats := stats, writes := [], indices := [] }
  else
    finishDir rel outputFormat stylesheet titleTemplate generated
      (walkItems mm children rel ignorePatterns outputFormat stylesheet
        includeMetadata titleTemplate generated
        { stats with directoriesScanned := stats.directoriesScanned + 1 })

/-- Result of a `run` invocation: `failed` holds the single
`core.setFailed` message if any, `outputs` the `core.setOutput` pairs in
order. -/
structure RunOut where
  failed : Option String
  outputs : List (String × String)
  stats : Stats
  writes : List (List String × String)
  indices : List DirectoryIndex
deriving DecidableEq

/-- `run` from the source. `inputs` is `core.getInput`; `fsys` is the
filesystem at the resolved root (`none` when `fs.existsSync` is false;
`path.resolve` is modelled as the identity on the configured root, which
preserves the failure message up to its absolute-path suffix). Traversal
I/O errors are outside this model, so the only failure is the missing
root. -/
def run (mm : String → String → Bool) (inputs : String → String)
    (fsys : Option FSEntries) (generated : String) : RunOut :=
  let rootDir := if inputs "root" = "" then "." else inputs "root"
  let outputFormat := if inputs "output-format" = "" then "both" else inputs "output-format"
  let stylesheet := inputs "stylesheet"
  let ignorePatterns := parseIgnorePatterns (inputs "ignore")
  let includeMetadata := inputs "include-metadata" = "true"
  let titleTemplate :=
    if inputs "title-template" = "" then "Index of {path}" else inputs "title-template"
  match fsys with
  | none =>
    { failed := some ("Root directory does not exist: " ++ rootDir),
      outputs := [], stats := ⟨0, 0⟩, writes := [], indices := [] }
  | some children =>
    let w := walkAndGenerate mm children [] ignorePatterns outputFormat
      stylesheet includeMetadata titleTemplate generated ⟨0, 0⟩
    let outs :=
      [("generated-count", natRepr w.stats.generatedCount),
       ("directories-scanned", natRepr w.stats.directoriesScanned)] ++
      (if outputFormat = "json" || outputFormat = "both" then
        [("manifest-path", rootDir ++ "/index.json")]
      else [])
    { failed := none, outputs := outs, stats := w.stats,
      writes := w.writes, indices := w.indices }

/-! ## Concrete fixtures -/

/-- A matcher with no patterns matching anything (any run whose ignore
list is empty behaves like this). -/
def mmNone : String → String → Bool := fun _ _ => false

/-- A matcher for literal patterns: a pattern matches exactly itself
(every glob without metacharacters behaves like this under minimatch). -/
def mmExact : String → String → Bool := fun p pat => p == pat

/-- Example listing: a 7-byte file and an empty subdirectory. -/
def exampleTree : FSEntries :=
  .cons "file1.txt" (.file 7 "2024-01-15T10:30:00.000Z")
    (.cons "sub" (.dir .nil) .nil)

/-- Example listing: one regular file. -/
def oneFileTree : FSEntries := .cons "a.txt" (.file 1 "t") .nil

/-- Example listing: two regular files whose names differ only in case
class: a lowercase name and a later-in-collation uppercase name that
precedes it in code-unit order. -/
def abTree : FSEntries :=
  .cons "a" (.file 1 "t") (.cons "B" (.file 1 "t") .nil)

/-! ## Reachable-directory counting (C5, C10) -/

/-- Well-formedness of a listing as a real `readdirSync` result: every
name, recursively, is nonempty (a filesystem cannot produce an
empty-named child). -/
def wfNames : FSEntries → Bool
  | .nil => true
  | .cons name child rest =>
    name ≠ "" &&
      (match child with
       | .dir cs => wfNames cs
       | .file _ _ => true) &&
      wfNames rest

/-- Well-formedness of a single child node. -/
def wfNode : FSNode → Bool
  | .dir cs => wfNames cs
  | .file _ _ => true

/-- From the spec (§4.2 steps 3 and 5, §8): the number of non-ignored
directories reachable strictly below a visited directory, where a child
is reached unless its name is one of the reserved artifact names or the
filter ignores its relative path. Stated from the spec's description of
reachability, independently of the walker embedding. -/
def reachableSub (mm : String → String → Bool) (pats : List String) :
    FSEntries → List String → Nat
  | .nil, _ => 0
  | .cons name child rest, rel =>
    (if name = "index.html" ∨ name = "index.json" then 0
     else if shouldIgnore mm (relJoin (rel ++ [name])) pats then 0
     else
       match child with
       | .dir cs => 1 + reachableSub mm pats cs (rel ++ [name])
       | .file _ _ => 0) +
      reachableSub mm pats rest rel

/-- From the spec (§8): "the number of non-ignored directories reachable
from root (including root)". -/
def reachableDirs (mm : String → String → Bool) (pats : List String)
    (children : FSEntries) : Nat :=
  1 + reachableSub mm pats children []

/-- Index files written per visited directory for an output-format
value: one for the HTML branch, one for the JSON branch. -/
def fmtFileCount (fmt : String) : Nat :=
  (if fmt = "html" || fmt = "both" then 1 else 0) +
    (if fmt = "json" || fmt = "both" then 1 else 0)

/-- The effect of the walk on one readdir child: subdirectories are
walked (the recursive `walkAndGenerate` call of the source), files
contribute nothing. -/
def walkNode (mm : String → String → Bool) (n : FSNode) (rel : List String)
    (ignorePatterns : List String) (outputFormat stylesheet : String)
    (includeMetadata : Bool) (titleTemplate : String) (generated : String)
    (stats : Stats) : WalkOut :=
  match n with
  | .dir cs =>
    walkAndGenerate mm cs rel ignorePatterns outputFormat stylesheet
      includeMetadata titleTemplate generated stats
  | .file _ _ => { stats := stats, writes := [], indices := [] }

/-- Directories the walk of one child visits: none for a file, and for a
subdirectory either zero (when the filter ignores it) or itself plus the
reachable directories below it. -/
def nodeDirs (mm : String → String → Bool) (pats : List String) (n : FSNode)
    (rel : List String) : Nat :=
  match n with
  | .dir cs =>
    if shouldIgnore mm (relString rel) pats then 0
    else 1 + reachableSub mm pats cs rel
  | .file _ _ => 0

/-- View of the loop state as a walk result. -/
def CollectOut.toWalkOut (c : CollectOut) : WalkOut :=
  ⟨c.stats, c.writes, c.indices⟩

/-- Counting invariant of one walk step: starting from `stats` and
visiting `delta` directories, the scanned counter grows by `delta`, and
the walk writes (and counts in `generatedCount`) `fmtFileCount fmt`
files per visited directory, assembling one index per visited
directory. -/
def CountsOk (fmt : String) (stats : Stats) (delta : Nat) (w : WalkOut) : Prop :=
  w.stats.directoriesScanned = stats.directoriesScanned + delta ∧
    w.stats.generatedCount = stats.generatedCount + fmtFileCount fmt * delta ∧
    w.writes.length = fmtFileCount fmt * delta ∧
    w.indices.length = delta


/-- Invariant of every `FileEntry` the walk collects: it is not one of
the reserved artifact names, the filter does not ignore its stored
relative path (hence neither that path nor its basename matches any
ignore pattern), and it carries no metadata when metadata collection is
off. -/
def EntryOk (mm : String → String → Bool) (pats : List String) (im : Bool)
    (e : FileEntry) : Prop :=
  e.name ≠ "index.html" ∧ e.name ≠ "index.json" ∧
    shouldIgnore mm e.path pats = false ∧
    (im = false → e.size = none ∧ e.modified = none)

/-- Invariant of every `DirectoryIndex` the walk assembles: its entry
sequence is the comparator-sort of a list of invariant-satisfying
entries. -/
def IndexOk (mm : String → String → Bool) (pats : List String) (im : Bool)
    (idx : DirectoryIndex) : Prop :=
  ∃ l, idx.entries = sortEntries l ∧ ∀ e ∈ l, EntryOk mm pats im e

/-- The per-character action of the four sequential replacements of
`escapeHtml` (ampersand first, so later entities are not re-escaped). -/
def escFun (c : Char) : List Char :=
  if c = '&' then "&amp;".data
  else if c = '<' then "&lt;".data
  else if c = '>' then "&gt;".data
  else if c = '"' then "&quot;".data
  else [c]

/-- A character list in which every ampersand begins one of the four
entities `escapeHtml` emits. Raw user ampersands would violate this
unless escaped. -/
inductive AmpOk : List Char → Prop where
  | nil : AmpOk []
  | cons (c : Char) (l : List Char) : c ≠ '&' → AmpOk l → AmpOk (c :: l)
  | amp (l : List Char) : AmpOk l → AmpOk ('&' :: 'a' :: 'm' :: 'p' :: ';' :: l)
  | lt (l : List Char) : AmpOk l → AmpOk ('&' :: 'l' :: 't' :: ';' :: l)
  | gt (l : List Char) : AmpOk l → AmpOk ('&' :: 'g' :: 't' :: ';' :: l)
  | quot (l : List Char) :
      AmpOk l → AmpOk ('&' :: 'q' :: 'u' :: 'o' :: 't' :: ';' :: l)

/-- No markup-special character at all (used for the numeric and date
cells, which are never escaped but cannot contain specials). -/
def specialFreeB (s : String) : Bool :=
  s.data.all fun c => !(c = '<' || c = '>' || c = '"' || c = '&')

/-- Replace a user-controlled string by content-free text, preserving
only emptiness (which selects the embedded-stylesheet branch). -/
def scrubStr (s : String) : String :=
  if s = "" then "" else "x"

/-- Strip an entry of all user-controlled content, preserving its type
and the presence of its optional fields. -/
def scrubEntry (e : FileEntry) : FileEntry :=
  { name := "",
    type := e.type,
    size := e.size.map fun _ => 0,
    modified := e.modified.map fun _ => "x",
    path := "" }

/-- Strip an index of all user-controlled content, preserving the entry
structure and whether the path is the root (which selects the parent
row). -/
def scrubIndex (idx : DirectoryIndex) : DirectoryIndex :=
  { path := if idx.path = "/" then "/" else "//",
    entries := idx.entries.map scrubEntry,
    generated := "x" }

/-! ## Theorems -/

/-! ## C1 and C2: the root index path -/

/-- C1: the claim says the scan root's assembled `DirectoryIndex` has
path exactly `"/"`. The code disagrees: for the root,
`path.relative` yields `""`, line 107 coalesces it to `"/"`, and the
`=== ""` guard of line 170 (written for the uncoalesced value) can no
longer fire, so line 170 prepends a second slash and the root index is
assembled with path `"//"`. Non-root directories do get `"/" ++
relativePath` (`"/sub"` here). This evaluates the embedded walk on a
root containing one file and one subdirectory. -/
theorem c1_root_index_path_is_double_slash :
    ((walkAndGenerate mmNone exampleTree [] [] "both" "" true
        "Index of {path}" "2024-01-20T15:00:00.000Z" ⟨0, 0⟩).indices.map
      DirectoryIndex.path) = ["/sub", "//"] ∧ ("//" : String) ≠ "/" := by
  constructor
  · set_option maxRecDepth 16000 in decide
  · decide

/-- C2: the claim says the HTML rendered for the scan root contains no
parent-directory row. The code disagrees, as a consequence of the C1
slip: the parent row is emitted whenever `index.path !== "/"`, and the
root's index path is `"//"`. Here the last file the walk writes is the
root's `index.html`, and its contents contain the synthetic `../` row. -/
theorem c2_root_html_contains_parent_row :
    (((walkAndGenerate mmNone exampleTree [] [] "html" "s" true "T"
          "2024-01-20T15:00:00.000Z" ⟨0, 0⟩).writes.map Prod.fst).getLastD []
        = ["index.html"]) ∧
      "<a href=\"../\">../</a>".data <:+:
        (((walkAndGenerate mmNone exampleTree [] [] "html" "s" true "T"
            "2024-01-20T15:00:00.000Z" ⟨0, 0⟩).writes.map Prod.snd).getLastD "").data := by
  constructor
  · decide
  · set_option maxRecDepth 16000 in decide

/-! ## C8: missing root directory -/

/-- C8: if the configured root path does not exist (`fs.existsSync`
false, modelled as `fsys = none`), the run writes no files, performs no
traversal (both counters stay zero and no index is assembled), sets no
outputs, and reports exactly one terminal failure whose message contains
`"does not exist"`. -/
theorem c8_missing_root_single_failure (mm : String → String → Bool)
    (inputs : String → String) (generated : String) :
    (∃ msg, (run mm inputs none generated).failed = some msg ∧
        "does not exist".data <:+: msg.data) ∧
      (run mm inputs none generated).writes = [] ∧
      (run mm inputs none generated).indices = [] ∧
      (run mm inputs none generated).stats = ⟨0, 0⟩ ∧
      (run mm inputs none generated).outputs = [] := by
  refine ⟨⟨"Root directory does not exist: " ++
    (if inputs "root" = "" then "." else inputs "root"), rfl, ?_⟩, rfl, rfl, rfl, rfl⟩
  rw [String.data_append]
  have h1 : "does not exist".data <:+: "Root directory does not exist: ".data := by
    decide
  have h2 : "Root directory does not exist: ".data <:+:
      "Root directory does not exist: ".data ++
        (if inputs "root" = "" then "." else inputs "root").data :=
    ⟨[], (if inputs "root" = "" then "." else inputs "root").data, by simp⟩
  exact h1.trans h2

/-! ## C9: ignored root aborts the walk -/

/-- C9: if the pattern filter reports the root itself (relative path
`"/"`) as ignored, `walkAndGenerate` returns before doing anything: the
counters are untouched (in particular `directoriesScanned` stays zero as
`run` initialises it), no file is written and no index assembled. -/
theorem c9_ignored_root_returns_immediately (mm : String → String → Bool)
    (children : FSEntries) (pats : List String) (fmt st : String) (im : Bool)
    (tt g : String) (gc : Nat)
    (h : shouldIgnore mm "/" pats = true) :
    walkAndGenerate mm children [] pats fmt st im tt g ⟨gc, 0⟩ =
      ⟨⟨gc, 0⟩, [], []⟩ := by
  have hrel : relString [] = "/" := rfl
  unfold walkAndGenerate
  rw [hrel, h]
  simp

/-- Closed witness for C9 at a concrete matcher, pattern list and tree. -/
theorem c9_ignored_root_returns_immediately_witness :
    shouldIgnore mmExact "/" ["/"] = true ∧
      walkAndGenerate mmExact exampleTree [] ["/"] "both" "" true "T" "g" ⟨0, 0⟩ =
        ⟨⟨0, 0⟩, [], []⟩ :=
  ⟨by decide,
    c9_ignored_root_returns_immediately mmExact exampleTree ["/"] "both" "" true
      "T" "g" 0 (by decide)⟩

theorem walkItems_nil (mm : String → String → Bool) (rel : List String)
    (pats : List String) (fmt st : String) (im : Bool) (tt g : String)
    (stats : Stats) :
    walkItems mm .nil rel pats fmt st im tt g stats = ⟨[], stats, [], []⟩ := rfl

theorem reachableSub_nil (mm : String → String → Bool) (pats : List String)
    (rel : List String) : reachableSub mm pats .nil rel = 0 := rfl

theorem reachableSub_cons (mm : String → String → Bool) (pats : List String)
    (name : String) (child : FSNode) (rest : FSEntries) (rel : List String) :
    reachableSub mm pats (.cons name child rest) rel =
      (if name = "index.html" ∨ name = "index.json" then 0
       else if shouldIgnore mm (relJoin (rel ++ [name])) pats then 0
       else
         match child with
         | .dir cs => 1 + reachableSub mm pats cs (rel ++ [name])
         | .file _ _ => 0) +
        reachableSub mm pats rest rel := by
  cases child <;> rfl

theorem wfNames_nil : wfNames .nil = true := rfl

theorem wfNames_cons (name : String) (child : FSNode) (rest : FSEntries) :
    wfNames (.cons name child rest) =
      (name ≠ "" && wfNode child && wfNames rest) := by
  cases child <;> rfl

theorem wfNode_dir (cs : FSEntries) : wfNode (.dir cs) = wfNames cs := rfl

theorem finishDir_counts (rel : List String) (fmt st tt g : String)
    (c : CollectOut) :
    (finishDir rel fmt st tt g c).stats.directoriesScanned
        = c.stats.directoriesScanned ∧
      (finishDir rel fmt st tt g c).stats.generatedCount
        = c.stats.generatedCount + fmtFileCount fmt ∧
      (finishDir rel fmt st tt g c).writes.length
        = c.writes.length + fmtFileCount fmt ∧
      (finishDir rel fmt st tt g c).indices.length = c.indices.length + 1 := by
  by_cases h1 : (fmt = "html" || fmt = "both") = true <;>
    by_cases h2 : (fmt = "json" || fmt = "both") = true <;>
      simp [finishDir, fmtFileCount, h1, h2]

/-- `relJoin` of a segment list ending in a nonempty name is nonempty. -/
theorem relJoin_append_ne (rel : List String) (name : String) (h : name ≠ "") :
    relJoin (rel ++ [name]) ≠ "" := by
  induction rel with
  | nil => simpa [relJoin] using h
  | cons s t ih =>
    cases t with
    | nil =>
      intro hx
      have : (s ++ "/" ++ name).data = "".data := congrArg String.data hx
      simp [String.data_append] at this
    | cons a b =>
      intro hx
      have : (s ++ "/" ++ relJoin ((a :: b) ++ [name])).data = "".data :=
        congrArg String.data hx
      simp [String.data_append] at this

/-- On a child with a nonempty name the two relative-path computations of
the source (the loop's `path.relative` for the child and the coalesced
one at the top of the recursive call) agree. -/
theorem relString_append (rel : List String) (name : String) (h : name ≠ "") :
    relString (rel ++ [name]) = relJoin (rel ++ [name]) := by
  unfold relString
  rw [if_neg (relJoin_append_ne rel name h)]

/-- The loop of the walker, unfolded one child at a time in terms of
`walkNode` (this is the recursive equation of the source's
`walkAndGenerate`). -/
theorem walkItems_cons (mm : String → String → Bool) (name : String)
    (child : FSNode) (rest : FSEntries) (rel : List String)
    (pats : List String) (fmt st : String) (im : Bool) (tt g : String)
    (stats : Stats) :
    walkItems mm (.cons name child rest) rel pats fmt st im tt g stats =
      (if name = "index.html" || name = "index.json" then
        walkItems mm rest rel pats fmt st im tt g stats
      else if shouldIgnore mm (relJoin (rel ++ [name])) pats then
        walkItems mm rest rel pats fmt st im tt g stats
      else
        let entry : FileEntry :=
          { name := name,
            type := match child with
              | .dir _ => .directory
              | .file _ _ => .file,
            size := match child, im with
              | .file sz _, true => some sz
              | _, _ => none,
            modified := match child, im with
              | .file _ mt, true => some mt
              | _, _ => none,
            path := relJoin (rel ++ [name]) }
        let sub := walkNode mm child (rel ++ [name]) pats fmt st im tt g stats
        let restOut := walkItems mm rest rel pats fmt st im tt g sub.stats
        { entries := entry :: restOut.entries,
          stats := restOut.stats,
          writes := sub.writes ++ restOut.writes,
          indices := sub.indices ++ restOut.indices }) := by
  cases child <;> rfl

/-- One directory visit satisfies the counting invariant, given it for
the directory's own listing loop: when the filter ignores the directory
nothing happens; otherwise the scanned counter is bumped, the loop runs,
and `finishDir` writes `fmtFileCount` files and one index. -/
theorem walkDir_counts (mm : String → String → Bool) (pats : List String)
    (fmt st : String) (im : Bool) (tt g : String) (cs : FSEntries)
    (rel : List String) (stats : Stats)
    (ih : ∀ rel stats, wfNames cs = true →
      CountsOk fmt stats (reachableSub mm pats cs rel)
        (walkItems mm cs rel pats fmt st im tt g stats).toWalkOut)
    (hwf : wfNames cs = true) :
    CountsOk fmt stats
      (if shouldIgnore mm (relString rel) pats then 0
       else 1 + reachableSub mm pats cs rel)
      (walkAndGenerate mm cs rel pats fmt st im tt g stats) := by
  by_cases hig : shouldIgnore mm (relString rel) pats = true
  · simp [walkAndGenerate, hig, CountsOk]
  · have hig2 : shouldIgnore mm (relString rel) pats = false := by
      simpa using hig
    have h1 := ih rel
      { stats with directoriesScanned := stats.directoriesScanned + 1 } hwf
    have h2 := finishDir_counts rel fmt st tt g
      (walkItems mm cs rel pats fmt st im tt g
        { stats with directoriesScanned := stats.directoriesScanned + 1 })
    obtain ⟨a1, a2, a3, a4⟩ := h1
    obtain ⟨b1, b2, b3, b4⟩ := h2
    simp only [CollectOut.toWalkOut] at a1 a2 a3 a4
    simp only [walkAndGenerate, hig2, Bool.false_eq_true, if_false, if_neg,
      CountsOk, hig2]
    rw [Nat.mul_add, Nat.mul_one]
    refine ⟨?_, ?_, ?_, ?_⟩ <;> simp only [b1, b2, b3, b4, a1, a2, a3, a4] <;> omega

/-- The counting invariant of the whole loop, by mutual structural
induction over the filesystem tree. -/
theorem walkItems_counts (mm : String → String → Bool) (pats : List String)
    (fmt st : String) (im : Bool) (tt g : String) :
    ∀ es : FSEntries, ∀ rel stats, wfNames es = true →
      CountsOk fmt stats (reachableSub mm pats es rel)
        (walkItems mm es rel pats fmt st im tt g stats).toWalkOut := by
  intro es
  refine @FSEntries.rec
    (fun n => ∀ rel stats, wfNode n = true →
      CountsOk fmt stats (nodeDirs mm pats n rel)
        (walkNode mm n rel pats fmt st im tt g stats))
    (fun es => ∀ rel stats, wfNames es = true →
      CountsOk fmt stats (reachableSub mm pats es rel)
        (walkItems mm es rel pats fmt st im tt g stats).toWalkOut)
    ?_ ?_ ?_ ?_ es
  · intro sz mt rel stats _
    simp [walkNode, nodeDirs, CountsOk]
  · intro cs ih rel stats hwf
    have hw : wfNames cs = true := by rw [wfNode_dir] at hwf; exact hwf
    have := walkDir_counts mm pats fmt st im tt g cs rel stats ih hw
    simpa [walkNode, nodeDirs] using this
  · intro rel stats _
    rw [walkItems_nil, reachableSub_nil]
    simp [CountsOk, CollectOut.toWalkOut]
  · intro name child rest ihc ihr rel stats hwf
    rw [wfNames_cons] at hwf
    simp only [Bool.and_eq_true, decide_eq_true_eq] at hwf
    obtain ⟨⟨hname, hwchild⟩, hwrest⟩ := hwf
    rw [walkItems_cons, reachableSub_cons]
    by_cases hres : (name = "index.html" || name = "index.json") = true
    · have hresp : name = "index.html" ∨ name = "index.json" := by
        simpa [Bool.or_eq_true, decide_eq_true_eq] using hres
      simp only [hres, if_true, if_pos hresp, Nat.zero_add]
      exact ihr rel stats hwrest
    · have hresp : ¬(name = "index.html" ∨ name = "index.json") := by
        simpa [Bool.or_eq_true, decide_eq_true_eq] using hres
      simp only [hres, if_false, Bool.false_eq_true, if_neg hresp]
      by_cases hig : shouldIgnore mm (relJoin (rel ++ [name])) pats = true
      · simp only [hig, if_true, Nat.zero_add]
        exact ihr rel stats hwrest
      · have hig2 : shouldIgnore mm (relJoin (rel ++ [name])) pats = false := by
          simpa using hig
        simp only [hig2, Bool.false_eq_true, if_false]
        cases child with
        | file sz mt =>
          have hb := ihr rel stats hwrest
          obtain ⟨b1, b2, b3, b4⟩ := hb
          simp only [CollectOut.toWalkOut, walkNode] at b1 b2 b3 b4 ⊢
          simp only [CountsOk, Nat.zero_add, List.nil_append]
          exact ⟨b1, b2, b3, b4⟩
        | dir cs =>
          have ha := ihc (rel ++ [name]) stats hwchild
          have hnd : nodeDirs mm pats (.dir cs) (rel ++ [name]) =
              1 + reachableSub mm pats cs (rel ++ [name]) := by
            simp [nodeDirs, relString_append rel name hname, hig2]
          rw [hnd] at ha
          obtain ⟨a1, a2, a3, a4⟩ := ha
          have hb := ihr rel
            (walkNode mm (.dir cs) (rel ++ [name]) pats fmt st im tt g stats).stats
            hwrest
          obtain ⟨b1, b2, b3, b4⟩ := hb
          simp only [CollectOut.toWalkOut] at b1 b2 b3 b4 ⊢
          simp only [CountsOk]
          rw [Nat.mul_add]
          refine ⟨?_, ?_, ?_, ?_⟩ <;>
            simp only [List.length_append, List.length_cons, b1, b2, b3, b4,
              a1, a2, a3, a4] <;> omega

/-- C5: for a well-formed tree whose root the filter does not ignore,
the walk's `directoriesScanned` counter and the number of
`DirectoryIndex` records produced both equal the spec's count of
non-ignored reachable directories (root included); `generatedCount`
grows by exactly one per file written; and with output-format `"both"`
it grows by exactly twice the number of directories scanned. -/
theorem c5_record_and_counter_equal_reachable (mm : String → String → Bool)
    (children : FSEntries) (pats : List String) (fmt st : String) (im : Bool)
    (tt g : String) (gc ds : Nat)
    (hroot : shouldIgnore mm "/" pats = false) (hwf : wfNames children = true) :
    (walkAndGenerate mm children [] pats fmt st im tt g
        ⟨gc, ds⟩).stats.directoriesScanned
        = ds + reachableDirs mm pats children ∧
      (walkAndGenerate mm children [] pats fmt st im tt g ⟨gc, ds⟩).indices.length
        = reachableDirs mm pats children ∧
      (walkAndGenerate mm children [] pats fmt st im tt g
          ⟨gc, ds⟩).stats.generatedCount
        = gc + (walkAndGenerate mm children [] pats fmt st im tt g ⟨gc, ds⟩).writes.length ∧
      (fmt = "both" →
        (walkAndGenerate mm children [] pats fmt st im tt g
            ⟨gc, ds⟩).stats.generatedCount
          = gc + 2 * reachableDirs mm pats children) := by
  have h := walkDir_counts mm pats fmt st im tt g children [] ⟨gc, ds⟩
    (fun rel stats hw => walkItems_counts mm pats fmt st im tt g children rel stats hw)
    hwf
  have hrel : relString [] = "/" := rfl
  rw [hrel, hroot] at h
  simp only [Bool.false_eq_true, if_false] at h
  obtain ⟨a1, a2, a3, a4⟩ := h
  refine ⟨by simpa [reachableDirs] using a1, by simpa [reachableDirs] using a4,
    by rw [a2, a3], fun hb => ?_⟩
  subst hb
  have hk : fmtFileCount "both" = 2 := by decide
  rw [hk] at a2
  simpa [reachableDirs] using a2

/-- Closed witness for C5: the example tree, empty ignore list, format
`"both"`: two reachable directories, four files written, counters `4`
and `2`. -/
theorem c5_record_and_counter_equal_reachable_witness :
    shouldIgnore mmNone "/" [] = false ∧ wfNames exampleTree = true ∧
      ((walkAndGenerate mmNone exampleTree [] [] "both" "" true "T" "g"
          ⟨0, 0⟩).stats.directoriesScanned = 0 + reachableDirs mmNone [] exampleTree ∧
        (walkAndGenerate mmNone exampleTree [] [] "both" "" true "T" "g"
            ⟨0, 0⟩).indices.length = reachableDirs mmNone [] exampleTree ∧
        (walkAndGenerate mmNone exampleTree [] [] "both" "" true "T" "g"
            ⟨0, 0⟩).stats.generatedCount
          = 0 + (walkAndGenerate mmNone exampleTree [] [] "both" "" true "T" "g"
              ⟨0, 0⟩).writes.length ∧
        ("both" = "both" →
          (walkAndGenerate mmNone exampleTree [] [] "both" "" true "T" "g"
              ⟨0, 0⟩).stats.generatedCount
            = 0 + 2 * reachableDirs mmNone [] exampleTree)) :=
  ⟨by decide, by decide,
    c5_record_and_counter_equal_reachable mmNone exampleTree [] "both" "" true
      "T" "g" 0 0 (by decide) (by decide)⟩

/-- C10: for an output-format value other than `"html"`, `"json"` and
`"both"`, the walk writes nothing and `generatedCount` stays put, while
the traversal still visits and counts every non-ignored reachable
directory exactly as a normal run does. -/
theorem c10_unknown_format_still_scans (mm : String → String → Bool)
    (children : FSEntries) (pats : List String) (fmt st : String) (im : Bool)
    (tt g : String) (gc ds : Nat)
    (h1 : fmt ≠ "html") (h2 : fmt ≠ "json") (h3 : fmt ≠ "both")
    (hwf : wfNames children = true) :
    (walkAndGenerate mm children [] pats fmt st im tt g ⟨gc, ds⟩).writes = [] ∧
      (walkAndGenerate mm children [] pats fmt st im tt g
          ⟨gc, ds⟩).stats.generatedCount = gc ∧
      (walkAndGenerate mm children [] pats fmt st im tt g
          ⟨gc, ds⟩).stats.directoriesScanned
        = ds + (if shouldIgnore mm "/" pats then 0
            else reachableDirs mm pats children) := by
  have h := walkDir_counts mm pats fmt st im tt g children [] ⟨gc, ds⟩
    (fun rel stats hw => walkItems_counts mm pats fmt st im tt g children rel stats hw)
    hwf
  have hrel : relString [] = "/" := rfl
  rw [hrel] at h
  obtain ⟨a1, a2, a3, a4⟩ := h
  have hk : fmtFileCount fmt = 0 := by
    simp [fmtFileCount, h1, h2, h3]
  rw [hk] at a2 a3
  refine ⟨List.length_eq_zero.mp (by simpa using a3), by simpa using a2, ?_⟩
  rw [a1]
  by_cases hig : shouldIgnore mm "/" pats = true <;>
    simp [hig, reachableDirs]

/-- Closed witness for C10 at a concrete unrecognized format string. -/
theorem c10_unknown_format_still_scans_witness :
    ("xml" : String) ≠ "html" ∧ ("xml" : String) ≠ "json" ∧
      ("xml" : String) ≠ "both" ∧ wfNames exampleTree = true ∧
      ((walkAndGenerate mmNone exampleTree [] [] "xml" "" true "T" "g"
          ⟨0, 0⟩).writes = [] ∧
        (walkAndGenerate mmNone exampleTree [] [] "xml" "" true "T" "g"
            ⟨0, 0⟩).stats.generatedCount = 0 ∧
        (walkAndGenerate mmNone exampleTree [] [] "xml" "" true "T" "g"
            ⟨0, 0⟩).stats.directoriesScanned
          = 0 + (if shouldIgnore mmNone "/" [] then 0
              else reachableDirs mmNone [] exampleTree)) :=
  ⟨by decide, by decide, by decide, by decide,
    c10_unknown_format_still_scans mmNone exampleTree [] "xml" "" true "T" "g"
      0 0 (by decide) (by decide) (by decide) (by decide)⟩

/-! ## The comparator is a total preorder (C6) -/

theorem natCompare_swap (a b : Nat) : compare a b = (compare b a).swap := by
  rcases Nat.lt_trichotomy a b with h | h | h
  · rw [Nat.compare_eq_lt.mpr h, Nat.compare_eq_gt.mpr h]
    rfl
  · rw [Nat.compare_eq_eq.mpr h, Nat.compare_eq_eq.mpr h.symm]
    rfl
  · rw [Nat.compare_eq_gt.mpr h, Nat.compare_eq_lt.mpr h]
    rfl

theorem then_swap (x y : Ordering) : (x.then y).swap = x.swap.then y.swap := by
  cases x <;> rfl

theorem cmpNatList_swap : ∀ a b : List Nat, cmpNatList a b = (cmpNatList b a).swap := by
  intro a
  induction a with
  | nil => intro b; cases b <;> rfl
  | cons x as ih =>
    intro b
    cases b with
    | nil => rfl
    | cons y bs =>
      show (compare x y).then (cmpNatList as bs) = _
      rw [natCompare_swap, ih bs, ← then_swap]
      rfl

theorem cmpNatList_eq_iff : ∀ a b : List Nat, cmpNatList a b = .eq ↔ a = b := by
  intro a
  induction a with
  | nil => intro b; cases b <;> simp [cmpNatList]
  | cons x as ih =>
    intro b
    cases b with
    | nil => simp [cmpNatList]
    | cons y bs =>
      show (compare x y).then (cmpNatList as bs) = .eq ↔ _
      rcases Nat.lt_trichotomy x y with h | h | h
      · rw [Nat.compare_eq_lt.mpr h]
        simp [Ordering.then]
        omega
      · rw [Nat.compare_eq_eq.mpr h, h]
        simpa [Ordering.then] using ih bs
      · rw [Nat.compare_eq_gt.mpr h]
        simp [Ordering.then]
        omega

theorem cmpNatList_lt_iff :
    ∀ a b : List Nat, cmpNatList a b = .lt ↔ List.Lex (· < ·) a b := by
  intro a
  induction a with
  | nil =>
    intro b
    cases b with
    | nil => exact ⟨(fun h => nomatch h), (fun h => nomatch h)⟩
    | cons y bs => exact ⟨fun _ => List.Lex.nil, fun _ => rfl⟩
  | cons x as ih =>
    intro b
    cases b with
    | nil => exact ⟨(fun h => nomatch h), (fun h => nomatch h)⟩
    | cons y bs =>
      show (compare x y).then (cmpNatList as bs) = .lt ↔ _
      rcases Nat.lt_trichotomy x y with h | h | h
      · rw [Nat.compare_eq_lt.mpr h]
        exact ⟨fun _ => List.Lex.rel h, fun _ => rfl⟩
      · rw [Nat.compare_eq_eq.mpr h]
        subst h
        constructor
        · intro hh
          exact List.Lex.cons ((ih bs).mp hh)
        · intro hh
          apply (ih bs).mpr
          cases hh with
          | rel hr => exact absurd hr (lt_irrefl x)
          | cons ht => exact ht
      · rw [Nat.compare_eq_gt.mpr h]
        constructor
        · intro hh; exact nomatch hh
        · intro hh
          cases hh with
          | rel hr => omega
          | cons ht => omega

theorem cmpNatList_ne_gt_iff (a b : List Nat) :
    cmpNatList a b ≠ .gt ↔ (List.Lex (· < ·) a b ∨ a = b) := by
  constructor
  · intro h
    rcases hx : cmpNatList a b with _ | _ | _
    · exact Or.inl ((cmpNatList_lt_iff a b).mp hx)
    · exact Or.inr ((cmpNatList_eq_iff a b).mp hx)
    · exact absurd hx h
  · rintro (h | h) <;> intro hx
    · rw [cmpNatList_swap] at hx
      have : cmpNatList b a = .lt := by
        cases hy : cmpNatList b a <;> rw [hy] at hx <;> first | rfl | exact absurd hx (by simp [Ordering.swap])
      have h2 := (cmpNatList_lt_iff b a).mp this
      exact (List.Lex.isAsymm (r := (· < ·))).asymm a b h h2
    · subst h
      rw [(cmpNatList_eq_iff a a).mpr rfl] at hx
      cases hx

theorem cmpNatList_le_trans (a b c : List Nat)
    (h1 : cmpNatList a b ≠ .gt) (h2 : cmpNatList b c ≠ .gt) :
    cmpNatList a c ≠ .gt := by
  rw [cmpNatList_ne_gt_iff] at h1 h2 ⊢
  rcases h1 with h1 | h1 <;> rcases h2 with h2 | h2
  · exact Or.inl (IsTrans.trans a b c h1 h2)
  · exact Or.inl (h2 ▸ h1)
  · exact Or.inl (h1 ▸ h2)
  · exact Or.inr (h1.trans h2)

theorem thenCmp_trans (pa pb pc ra rb rc : List Nat)
    (h1 : (cmpNatList pa pb).then (cmpNatList ra rb) ≠ .gt)
    (h2 : (cmpNatList pb pc).then (cmpNatList rb rc) ≠ .gt) :
    (cmpNatList pa pc).then (cmpNatList ra rc) ≠ .gt := by
  rcases hab : cmpNatList pa pb with _ | _ | _ <;> rw [hab] at h1 <;>
    rcases hbc : cmpNatList pb pc with _ | _ | _ <;> rw [hbc] at h2
  · have h := IsTrans.trans pa pb pc
      ((cmpNatList_lt_iff pa pb).mp hab) ((cmpNatList_lt_iff pb pc).mp hbc)
    rw [(cmpNatList_lt_iff pa pc).mpr h]
    simp [Ordering.then]
  · have he := (cmpNatList_eq_iff pb pc).mp hbc
    rw [← he, hab]
    simp [Ordering.then]
  · exact (h2 rfl).elim
  · have he := (cmpNatList_eq_iff pa pb).mp hab
    rw [he, hbc]
    simp [Ordering.then]
  · have he1 := (cmpNatList_eq_iff pa pb).mp hab
    have he2 := (cmpNatList_eq_iff pb pc).mp hbc
    rw [(cmpNatList_eq_iff pa pc).mpr (he1.trans he2)]
    simp [Ordering.then] at h1 h2 ⊢
    exact cmpNatList_le_trans ra rb rc h1 h2
  · exact (h2 rfl).elim
  · exact (h1 rfl).elim
  · exact (h1 rfl).elim
  · exact (h1 rfl).elim

theorem localeCompare_swap (a b : String) :
    localeCompare a b = (localeCompare b a).swap := by
  unfold localeCompare
  rw [then_swap, ← cmpNatList_swap, ← cmpNatList_swap]

theorem localeCompare_trans (a b c : String)
    (h1 : localeCompare a b ≠ .gt) (h2 : localeCompare b c ≠ .gt) :
    localeCompare a c ≠ .gt := by
  unfold localeCompare at h1 h2 ⊢
  exact thenCmp_trans _ _ _ _ _ _ h1 h2

theorem compareEntries_swap (a b : FileEntry) :
    compareEntries a b = (compareEntries b a).swap := by
  unfold compareEntries
  cases ha : a.type <;> cases hb : b.type
  · exact localeCompare_swap a.name b.name
  · rfl
  · rfl
  · exact localeCompare_swap a.name b.name

theorem entryLE_total (a b : FileEntry) : entryLE a b ∨ entryLE b a := by
  unfold entryLE
  by_cases h : compareEntries a b = .gt
  · right
    rw [compareEntries_swap b a, h]
    simp [Ordering.swap]
  · exact Or.inl h

theorem entryLE_trans (a b c : FileEntry) (h1 : entryLE a b) (h2 : entryLE b c) :
    entryLE a c := by
  unfold entryLE compareEntries at h1 h2 ⊢
  cases ha : a.type <;> cases hb : b.type <;> cases hc : c.type <;>
    simp [ha, hb, hc] at h1 h2 ⊢ <;>
    exact localeCompare_trans _ _ _ h1 h2

/-- The sort the walker applies produces a list ordered by the
comparator. -/
theorem sortEntries_sorted (l : List FileEntry) :
    List.Sorted entryLE (sortEntries l) :=
  @List.sorted_insertionSort FileEntry entryLE _ ⟨entryLE_total⟩ ⟨entryLE_trans⟩ l

/-- Sorting the entries neither adds nor removes entries. -/
theorem sortEntries_mem (l : List FileEntry) (e : FileEntry) :
    e ∈ sortEntries l ↔ e ∈ l :=
  (List.perm_insertionSort entryLE l).mem_iff

/-! ## The entries and indices the walk produces (C3, C6, C7) -/

theorem finishDir_indices (rel : List String) (fmt st tt g : String)
    (c : CollectOut) :
    (finishDir rel fmt st tt g c).indices =
      c.indices ++
        [⟨if relString rel = "" then "/" else "/" ++ relString rel,
          sortEntries c.entries, g⟩] := by
  by_cases h1 : (fmt = "html" || fmt = "both") = true <;>
    by_cases h2 : (fmt = "json" || fmt = "both") = true <;>
      simp [finishDir, h1, h2]

/-- Every entry the loop collects satisfies `EntryOk`, and every index
any recursive call assembles satisfies `IndexOk`; by mutual structural
induction over the tree. -/
theorem walkItems_entries_indices (mm : String → String → Bool)
    (pats : List String) (fmt st : String) (im : Bool) (tt g : String) :
    ∀ es : FSEntries, ∀ rel stats,
      (∀ e ∈ (walkItems mm es rel pats fmt st im tt g stats).entries,
          EntryOk mm pats im e) ∧
        (∀ idx ∈ (walkItems mm es rel pats fmt st im tt g stats).indices,
          IndexOk mm pats im idx) := by
  intro es
  refine @FSEntries.rec
    (fun n => ∀ rel stats,
      ∀ idx ∈ (walkNode mm n rel pats fmt st im tt g stats).indices,
        IndexOk mm pats im idx)
    (fun es => ∀ rel stats,
      (∀ e ∈ (walkItems mm es rel pats fmt st im tt g stats).entries,
          EntryOk mm pats im e) ∧
        (∀ idx ∈ (walkItems mm es rel pats fmt st im tt g stats).indices,
          IndexOk mm pats im idx))
    ?_ ?_ ?_ ?_ es
  · intro sz mt rel stats idx hidx
    simp [walkNode] at hidx
  · intro cs ih rel stats idx hidx
    simp only [walkNode] at hidx
    by_cases hig : shouldIgnore mm (relString rel) pats = true
    · unfold walkAndGenerate at hidx
      rw [hig] at hidx
      simp at hidx
    · have hig2 : shouldIgnore mm (relString rel) pats = false := by simpa using hig
      unfold walkAndGenerate at hidx
      rw [hig2] at hidx
      simp only [Bool.false_eq_true, if_false, finishDir_indices, List.mem_append,
        List.mem_singleton] at hidx
      rcases hidx with hidx | hidx
      · exact (ih rel _).2 idx hidx
      · subst hidx
        exact ⟨(walkItems mm cs rel pats fmt st im tt g _).entries, rfl,
          (ih rel _).1⟩
  · intro rel stats
    rw [walkItems_nil]
    exact ⟨(fun e he => nomatch he), (fun idx hidx => nomatch hidx)⟩
  · intro name child rest ihc ihr rel stats
    rw [walkItems_cons]
    by_cases hres : (name = "index.html" || name = "index.json") = true
    · simp only [hres, if_true]
      exact ihr rel stats
    · simp only [hres, Bool.false_eq_true, if_false]
      by_cases hig : shouldIgnore mm (relJoin (rel ++ [name])) pats = true
      · simp only [hig, if_true]
        exact ihr rel stats
      · have hig2 : shouldIgnore mm (relJoin (rel ++ [name])) pats = false := by
          simpa using hig
        simp only [hig2, Bool.false_eq_true, if_false]
        have hresp : ¬(name = "index.html" ∨ name = "index.json") := by
          simpa [Bool.or_eq_true, decide_eq_true_eq] using hres
      
        constructor
        · intro e he
          simp only [List.mem_cons] at he
          rcases he with he | he
          · subst he
            refine ⟨fun hx => hresp (Or.inl hx), fun hx => hresp (Or.inr hx),
              hig2, fun him => ?_⟩
            subst him
            cases child <;> exact ⟨rfl, rfl⟩
          · exact ((ihr rel _).1) e he
        · intro idx hidx
          simp only [List.mem_append] at hidx
          rcases hidx with hidx | hidx
          · exact ihc (rel ++ [name]) stats idx hidx
          · exact (ihr rel _).2 idx hidx

/-- Every index a top-level `walkAndGenerate` call produces satisfies
`IndexOk`. -/
theorem walkAndGenerate_indexOk (mm : String → String → Bool)
    (children : FSEntries) (rel : List String) (pats : List String)
    (fmt st : String) (im : Bool) (tt g : String) (stats : Stats) :
    ∀ idx ∈ (walkAndGenerate mm children rel pats fmt st im tt g stats).indices,
      IndexOk mm pats im idx := by
  intro idx hidx
  by_cases hig : shouldIgnore mm (relString rel) pats = true
  · unfold walkAndGenerate at hidx
    rw [hig] at hidx
    simp at hidx
  · have hig2 : shouldIgnore mm (relString rel) pats = false := by simpa using hig
    unfold walkAndGenerate at hidx
    rw [hig2] at hidx
    simp only [Bool.false_eq_true, if_false, finishDir_indices, List.mem_append,
      List.mem_singleton] at hidx
    rcases hidx with h | h
    · exact (walkItems_entries_indices mm pats fmt st im tt g children rel _).2 idx h
    · subst h
      exact ⟨(walkItems mm children rel pats fmt st im tt g _).entries, rfl,
        (walkItems_entries_indices mm pats fmt st im tt g children rel _).1⟩

/-! ## C7: no reserved or ignored entries -/

/-- C7: in every `DirectoryIndex` the walk produces, no entry is named
`index.html` or `index.json`, and no entry's relative path or basename
matches any ignore pattern (the filter reports every stored entry path
as not ignored, and pattern by pattern both the normalized path and its
basename fail to match). -/
theorem c7_entries_never_reserved_or_ignored (mm : String → String → Bool)
    (children : FSEntries) (rel : List String) (pats : List String)
    (fmt st : String) (im : Bool) (tt g : String) (stats : Stats) :
    ∀ idx ∈ (walkAndGenerate mm children rel pats fmt st im tt g stats).indices,
      ∀ e ∈ idx.entries,
        e.name ≠ "index.html" ∧ e.name ≠ "index.json" ∧
          shouldIgnore mm e.path pats = false ∧
          ∀ pat ∈ pats, mm (normSlashes e.path) pat = false ∧
            mm (basename (normSlashes e.path)) pat = false := by
  intro idx hidx e he
  obtain ⟨l, hl, hok⟩ :=
    walkAndGenerate_indexOk mm children rel pats fmt st im tt g stats idx hidx
  rw [hl] at he
  obtain ⟨h1, h2, h3, _⟩ := hok e ((sortEntries_mem l e).mp he)
  refine ⟨h1, h2, h3, fun pat hpat => ?_⟩
  unfold shouldIgnore at h3
  have := (List.any_eq_false.mp h3) pat hpat
  simpa [Bool.or_eq_false_iff] using this

/-- Closed witness for C7: a one-file listing walked with the literal
pattern `node_modules`; the collected entry is neither reserved nor
matched by the pattern. -/
theorem c7_entries_never_reserved_or_ignored_witness :
    (⟨"//", [⟨"a.txt", EntryType.file, some 1, some "t", "a.txt"⟩], "g"⟩ :
        DirectoryIndex) ∈
      (walkAndGenerate mmExact oneFileTree [] ["node_modules"] "json" "" true
        "T" "g" ⟨0, 0⟩).indices ∧
    (⟨"a.txt", EntryType.file, some 1, some "t", "a.txt"⟩ : FileEntry) ∈
      (⟨"//", [⟨"a.txt", EntryType.file, some 1, some "t", "a.txt"⟩], "g"⟩ :
        DirectoryIndex).entries ∧
    (("a.txt" : String) ≠ "index.html" ∧ ("a.txt" : String) ≠ "index.json" ∧
      shouldIgnore mmExact "a.txt" ["node_modules"] = false ∧
      ∀ pat ∈ ["node_modules"], mmExact (normSlashes "a.txt") pat = false ∧
        mmExact (basename (normSlashes "a.txt")) pat = false) := by
  refine ⟨by decide, by decide, ?_⟩
  exact c7_entries_never_reserved_or_ignored mmExact oneFileTree [] ["node_modules"]
    "json" "" true "T" "g" ⟨0, 0⟩
    ⟨"//", [⟨"a.txt", EntryType.file, some 1, some "t", "a.txt"⟩], "g"⟩
    (by decide)
    ⟨"a.txt", EntryType.file, some 1, some "t", "a.txt"⟩
    (by decide)

/-! ## C6: entry ordering -/

/-- C6 counterexample: the claim asserts ascending case-sensitive
lexicographic name order within each type group, but the code sorts
with `localeCompare`. On two files named `"a"` and `"B"` the walk
produces them in the order `["a", "B"]` (locale collation), while
case-sensitive lexicographic order would demand `"B"` first, since
`'B' < 'a'` in code-unit order. -/
theorem c6_locale_order_not_lexicographic :
    ((walkAndGenerate mmNone abTree [] [] "json" "" false "T" "g"
        ⟨0, 0⟩).indices.map fun i => i.entries.map FileEntry.name)
      = [["a", "B"]] ∧ ('B' : Char) < 'a' := by
  constructor
  · decide
  · decide

/-- C6 as amended: in every `DirectoryIndex` produced, all
directory-typed entries precede all file-typed entries, and within each
type group the names ascend in the locale-aware comparison the code
actually uses (`localeCompare`, modelled as case-insensitive primary
order with a lowercase-first case pass), rather than in case-sensitive
lexicographic order. -/
theorem c6_entries_sorted_by_comparator (mm : String → String → Bool)
    (children : FSEntries) (rel : List String) (pats : List String)
    (fmt st : String) (im : Bool) (tt g : String) (stats : Stats) :
    ∀ idx ∈ (walkAndGenerate mm children rel pats fmt st im tt g stats).indices,
      idx.entries.Pairwise fun a b =>
        (a.type = .file → b.type = .file) ∧
          (a.type = b.type → localeCompare a.name b.name ≠ .gt) := by
  intro idx hidx
  obtain ⟨l, hl, _⟩ :=
    walkAndGenerate_indexOk mm children rel pats fmt st im tt g stats idx hidx
  rw [hl]
  refine (sortEntries_sorted l).imp ?_
  intro a b hab
  constructor
  · intro haf
    cases hbt : b.type
    · rfl
    · exfalso
      unfold entryLE compareEntries at hab
      simp [haf, hbt] at hab
  · intro heq
    unfold entryLE compareEntries at hab
    rw [if_neg (by simp [heq])] at hab
    exact hab

/-- Closed witness for C6 as amended, checked on the two-file example:
the produced order is `a` before `B` and the pairwise conditions hold. -/
theorem c6_entries_sorted_by_comparator_witness :
    (⟨"//",
        [⟨"a", EntryType.file, none, none, "a"⟩,
          ⟨"B", EntryType.file, none, none, "B"⟩], "g"⟩ : DirectoryIndex) ∈
      (walkAndGenerate mmNone abTree [] [] "json" "" false "T" "g"
        ⟨0, 0⟩).indices ∧
    ([⟨"a", EntryType.file, none, none, "a"⟩,
        ⟨"B", EntryType.file, none, none, "B"⟩] : List FileEntry).Pairwise
      (fun a b => (a.type = .file → b.type = .file) ∧
        (a.type = b.type → localeCompare a.name b.name ≠ .gt)) := by
  refine ⟨by decide, ?_⟩
  have h := c6_entries_sorted_by_comparator mmNone abTree [] [] "json" "" false
    "T" "g" ⟨0, 0⟩
    ⟨"//",
      [⟨"a", EntryType.file, none, none, "a"⟩,
        ⟨"B", EntryType.file, none, none, "B"⟩], "g"⟩
    (by decide)
  exact h

/-! ## C3: the include-metadata default -/

/-- C3 counterexample: the claim asserts that when the
`include-metadata` input resolves to the empty string, metadata
collection defaults to on. It does not: line 27 computes
`includeMetadata` as `input === "true"`, which is `false` for the empty
string. Running with an input map on which `include-metadata` is `""`
over a root holding a 7-byte regular file produces a `FileEntry` for it
with no `size` and no `modified`. -/
theorem c3_empty_metadata_input_counterexample :
    ((run mmNone (fun k => if k = "root" then "." else "")
          (some exampleTree) "g").indices.map
        fun i => i.entries.map fun e => (e.name, e.size, e.modified))
      = [[], [("sub", none, none), ("file1.txt", none, none)]] ∧
    (fun k => if k = "root" then "." else "") "include-metadata" = "" := by
  constructor
  · decide
  · decide

/-- C3 as amended: when the `include-metadata` input resolves to the
empty string, metadata collection is disabled — no entry of any
produced index carries a `size` or `modified` field. (Metadata is
collected only when the resolved input is exactly the string `"true"`;
the documented default of `true` is supplied by the action metadata,
outside this code.) -/
theorem c3_empty_metadata_input_disables_metadata
    (mm : String → String → Bool) (inputs : String → String)
    (children : FSEntries) (g : String)
    (hmeta : inputs "include-metadata" = "") :
    ∀ idx ∈ (run mm inputs (some children) g).indices,
      ∀ e ∈ idx.entries, e.size = none ∧ e.modified = none := by
  intro idx hidx e he
  simp only [run] at hidx
  obtain ⟨l, hl, hok⟩ :=
    walkAndGenerate_indexOk mm children []
      (parseIgnorePatterns (inputs "ignore"))
      (if inputs "output-format" = "" then "both" else inputs "output-format")
      (inputs "stylesheet")
      (decide (inputs "include-metadata" = "true"))
      (if inputs "title-template" = "" then "Index of {path}"
        else inputs "title-template")
      g ⟨0, 0⟩ idx hidx
  rw [hl] at he
  have hfalse : (decide (inputs "include-metadata" = "true")) = false := by
    rw [hmeta]
    decide
  exact (hok e ((sortEntries_mem l e).mp he)).2.2.2 hfalse

/-- Closed witness for C3 as amended at the concrete run of the
counterexample. -/
theorem c3_empty_metadata_input_disables_metadata_witness :
    (fun k => if k = "root" then "." else "") "include-metadata" = "" ∧
    (⟨"//",
        [⟨"sub", EntryType.directory, none, none, "sub"⟩,
          ⟨"file1.txt", EntryType.file, none, none, "file1.txt"⟩], "g"⟩ :
        DirectoryIndex) ∈
      (run mmNone (fun k => if k = "root" then "." else "")
        (some exampleTree) "g").indices ∧
    (⟨"file1.txt", EntryType.file, none, none, "file1.txt"⟩ : FileEntry) ∈
      (⟨"//",
          [⟨"sub", EntryType.directory, none, none, "sub"⟩,
            ⟨"file1.txt", EntryType.file, none, none, "file1.txt"⟩], "g"⟩ :
          DirectoryIndex).entries ∧
    ((⟨"file1.txt", EntryType.file, none, none, "file1.txt"⟩ :
        FileEntry).size = none ∧
      (⟨"file1.txt", EntryType.file, none, none, "file1.txt"⟩ :
        FileEntry).modified = none) := by
  refine ⟨by decide, by decide, by decide, ?_⟩
  exact c3_empty_metadata_input_disables_metadata mmNone
    (fun k => if k = "root" then "." else "") exampleTree "g" (by decide)
    ⟨"//",
      [⟨"sub", EntryType.directory, none, none, "sub"⟩,
        ⟨"file1.txt", EntryType.file, none, none, "file1.txt"⟩], "g"⟩
    (by decide)
    ⟨"file1.txt", EntryType.file, none, none, "file1.txt"⟩
    (by decide)

/-! ## Escaping lemmas (C4) -/

/-- The four sequential global replacements act character by character:
the ampersand pass runs first, and the entities it introduces contain
no `<`, `>` or `"`, so the later passes leave them alone. -/
theorem escChain_eq (l : List Char) :
    ((((l.flatMap fun x => if x = '&' then "&amp;".data else [x]).flatMap
          fun x => if x = '<' then "&lt;".data else [x]).flatMap
        fun x => if x = '>' then "&gt;".data else [x]).flatMap
      fun x => if x = '"' then "&quot;".data else [x]) = l.flatMap escFun := by
  induction l with
  | nil => rfl
  | cons c t ih =>
    simp only [List.flatMap_cons, List.flatMap_append]
    rw [ih]
    by_cases h1 : c = '&'
    · subst h1
      rfl
    · by_cases h2 : c = '<'
      · subst h2
        rfl
      · by_cases h3 : c = '>'
        · subst h3
          rfl
        · by_cases h4 : c = '"'
          · subst h4
            rfl
          · simp [escFun, h1, h2, h3, h4]

theorem escapeHtml_data (s : String) :
    (escapeHtml s).data = s.data.flatMap escFun := by
  show ((((s.data.flatMap fun x => if x = '&' then "&amp;".data else [x]).flatMap
          fun x => if x = '<' then "&lt;".data else [x]).flatMap
        fun x => if x = '>' then "&gt;".data else [x]).flatMap
      fun x => if x = '"' then "&quot;".data else [x]) = s.data.flatMap escFun
  exact escChain_eq s.data

theorem escFun_count_lt (c : Char) : (escFun c).count '<' = 0 := by
  unfold escFun
  by_cases h1 : c = '&'
  · simp [h1]
  · by_cases h2 : c = '<'
    · simp [h1, h2]
    · by_cases h3 : c = '>'
      · simp [h1, h2, h3]
      · by_cases h4 : c = '"'
        · simp [h1, h2, h3, h4]
        · simp [h1, h2, h3, h4, List.count_cons, h2]

theorem escFun_count_gt (c : Char) : (escFun c).count '>' = 0 := by
  unfold escFun
  by_cases h1 : c = '&'
  · simp [h1]
  · by_cases h2 : c = '<'
    · simp [h1, h2]
    · by_cases h3 : c = '>'
      · simp [h1, h2, h3]
      · by_cases h4 : c = '"'
        · simp [h1, h2, h3, h4]
        · simp [h1, h2, h3, h4, List.count_cons, h3]

theorem escFun_count_quot (c : Char) : (escFun c).count '"' = 0 := by
  unfold escFun
  by_cases h1 : c = '&'
  · simp [h1]
  · by_cases h2 : c = '<'
    · simp [h1, h2]
    · by_cases h3 : c = '>'
      · simp [h1, h2, h3]
      · by_cases h4 : c = '"'
        · simp [h1, h2, h3, h4]
        · simp [h1, h2, h3, h4, List.count_cons, h4]

theorem flatMap_escFun_count (l : List Char) (x : Char)
    (hx : ∀ c, (escFun c).count x = 0) : (l.flatMap escFun).count x = 0 := by
  induction l with
  | nil => rfl
  | cons c t ih =>
    rw [List.flatMap_cons, List.count_append, hx c, ih]

theorem escapeHtml_count_lt (s : String) : (escapeHtml s).data.count '<' = 0 := by
  rw [escapeHtml_data]
  exact flatMap_escFun_count s.data '<' escFun_count_lt

theorem escapeHtml_count_gt (s : String) : (escapeHtml s).data.count '>' = 0 := by
  rw [escapeHtml_data]
  exact flatMap_escFun_count s.data '>' escFun_count_gt

theorem escapeHtml_count_quot (s : String) : (escapeHtml s).data.count '"' = 0 := by
  rw [escapeHtml_data]
  exact flatMap_escFun_count s.data '"' escFun_count_quot

theorem ampOk_append {a b : List Char} (ha : AmpOk a) (hb : AmpOk b) :
    AmpOk (a ++ b) := by
  induction ha with
  | nil => exact hb
  | cons c l hc _ ih => exact AmpOk.cons c _ hc ih
  | amp l _ ih => exact AmpOk.amp _ ih
  | lt l _ ih => exact AmpOk.lt _ ih
  | gt l _ ih => exact AmpOk.gt _ ih
  | quot l _ ih => exact AmpOk.quot _ ih

theorem ampOk_of_no_amp {l : List Char} (h : ∀ c ∈ l, c ≠ '&') : AmpOk l := by
  induction l with
  | nil => exact AmpOk.nil
  | cons c t ih =>
    exact AmpOk.cons c t (h c (List.mem_cons_self c t))
      (ih fun d hd => h d (List.mem_cons_of_mem c hd))

theorem ampOk_escFun (c : Char) : AmpOk (escFun c) := by
  unfold escFun
  by_cases h1 : c = '&'
  · simp only [h1, if_true]
    exact AmpOk.amp [] AmpOk.nil
  · by_cases h2 : c = '<'
    · simp only [h1, h2, if_true, if_false]
      exact AmpOk.lt [] AmpOk.nil
    · by_cases h3 : c = '>'
      · simp only [h1, h2, h3, if_true, if_false]
        exact AmpOk.gt [] AmpOk.nil
      · by_cases h4 : c = '"'
        · simp only [h1, h2, h3, h4, if_true, if_false]
          exact AmpOk.quot [] AmpOk.nil
        · simp only [h1, h2, h3, h4, if_false]
          exact AmpOk.cons c [] h1 AmpOk.nil

theorem ampOk_escapeHtml (s : String) : AmpOk (escapeHtml s).data := by
  rw [escapeHtml_data]
  induction s.data with
  | nil => exact AmpOk.nil
  | cons c t ih =>
    rw [List.flatMap_cons]
    exact ampOk_append (ampOk_escFun c) ih

/-- A string with no markup specials has zero counts of all four and
satisfies `AmpOk`. -/
theorem specialFreeB_spec (s : String) (hs : specialFreeB s = true) :
    s.data.count '<' = 0 ∧ s.data.count '>' = 0 ∧ s.data.count '"' = 0 ∧
      AmpOk s.data := by
  unfold specialFreeB at hs
  rw [List.all_eq_true] at hs
  have hne : ∀ x ∈ s.data, x ≠ '<' ∧ x ≠ '>' ∧ x ≠ '"' ∧ x ≠ '&' := by
    intro x hx
    have h := hs x hx
    simp at h
    exact ⟨h.1.1.1, h.1.1.2, h.1.2, h.2⟩
  refine ⟨?_, ?_, ?_, ampOk_of_no_amp fun c hc => (hne c hc).2.2.2⟩
  · rw [List.count_eq_zero]
    intro hmem
    exact (hne _ hmem).1 rfl
  · rw [List.count_eq_zero]
    intro hmem
    exact (hne _ hmem).2.1 rfl
  · rw [List.count_eq_zero]
    intro hmem
    exact (hne _ hmem).2.2.1 rfl

theorem specialFreeB_append (a b : String) :
    specialFreeB (a ++ b) = (specialFreeB a && specialFreeB b) := by
  unfold specialFreeB
  rw [String.data_append, List.all_append]

theorem digitChar_safe (d : Nat) :
    (!(digitChar d = '<' || digitChar d = '>' || digitChar d = '"' ||
        digitChar d = '&')) = true := by
  unfold digitChar
  split_ifs <;> decide

theorem natReprAux_safe (fuel n : Nat) :
    (natReprAux fuel n).all
      (fun c => !(c = '<' || c = '>' || c = '"' || c = '&')) = true := by
  induction fuel generalizing n with
  | zero => rfl
  | succ fuel ih =>
    unfold natReprAux
    by_cases h : n < 10
    · simp only [h, if_true, List.all_cons, List.all_nil, Bool.and_true]
      exact digitChar_safe n
    · simp only [h, if_false, List.all_append, List.all_cons, List.all_nil,
        Bool.and_true, Bool.and_eq_true]
      exact ⟨ih (n / 10), digitChar_safe (n % 10)⟩

theorem natRepr_specialFree (n : Nat) : specialFreeB (natRepr n) = true :=
  natReprAux_safe (n + 1) n

theorem toFixed1_specialFree (n d : Nat) : specialFreeB (toFixed1 n d) = true := by
  unfold toFixed1
  rw [specialFreeB_append, specialFreeB_append]
  simp only [Bool.and_eq_true]
  exact ⟨⟨natRepr_specialFree _, by decide⟩, natRepr_specialFree _⟩

theorem formatFileSize_specialFree (bytes : Nat) :
    specialFreeB (formatFileSize bytes) = true := by
  unfold formatFileSize
  split_ifs <;> rw [specialFreeB_append] <;> simp only [Bool.and_eq_true] <;>
    exact ⟨by first | exact natRepr_specialFree _ | exact toFixed1_specialFree _ _,
      by decide⟩

theorem monthShort_specialFree (m : Nat) : specialFreeB (monthShort m) = true := by
  unfold monthShort
  split <;> decide

theorem formatDate_specialFree (s : String) :
    specialFreeB (formatDate s) = true := by
  unfold formatDate
  split
  · rw [specialFreeB_append, specialFreeB_append, specialFreeB_append,
      specialFreeB_append]
    simp only [Bool.and_eq_true]
    exact ⟨⟨⟨⟨monthShort_specialFree _, by decide⟩, natRepr_specialFree _⟩,
      by decide⟩, natRepr_specialFree _⟩
  · decide

/-- Count of a markup special in a specials-free string is zero. -/
theorem specialFree_count (s : String) (hs : specialFreeB s = true) (x : Char)
    (hx : x = '<' ∨ x = '>' ∨ x = '"') : s.data.count x = 0 := by
  obtain ⟨h1, h2, h3, _⟩ := specialFreeB_spec s hs
  rcases hx with h | h | h <;> subst h
  · exact h1
  · exact h2
  · exact h3

theorem specialFree_ampOk (s : String) (hs : specialFreeB s = true) :
    AmpOk s.data :=
  (specialFreeB_spec s hs).2.2.2

theorem escapeHtml_count (s : String) (x : Char)
    (hx : x = '<' ∨ x = '>' ∨ x = '"') : (escapeHtml s).data.count x = 0 := by
  rcases hx with h | h | h <;> subst h
  · exact escapeHtml_count_lt s
  · exact escapeHtml_count_gt s
  · exact escapeHtml_count_quot s

theorem formatFileSize_count_lt (n : Nat) :
    (formatFileSize n).data.count '<' = 0 :=
  specialFree_count _ (formatFileSize_specialFree n) _ (Or.inl rfl)

theorem formatFileSize_count_gt (n : Nat) :
    (formatFileSize n).data.count '>' = 0 :=
  specialFree_count _ (formatFileSize_specialFree n) _ (Or.inr (Or.inl rfl))

theorem formatFileSize_count_quot (n : Nat) :
    (formatFileSize n).data.count '"' = 0 :=
  specialFree_count _ (formatFileSize_specialFree n) _ (Or.inr (Or.inr rfl))

theorem formatDate_count_lt (s : String) : (formatDate s).data.count '<' = 0 :=
  specialFree_count _ (formatDate_specialFree s) _ (Or.inl rfl)

theorem formatDate_count_gt (s : String) : (formatDate s).data.count '>' = 0 :=
  specialFree_count _ (formatDate_specialFree s) _ (Or.inr (Or.inl rfl))

theorem formatDate_count_quot (s : String) : (formatDate s).data.count '"' = 0 :=
  specialFree_count _ (formatDate_specialFree s) _ (Or.inr (Or.inr rfl))

/-- Scrubbing an entry of all user text leaves the markup-special
counts of its rendered row unchanged: the fixed markup is identical,
the user text only enters escaped (count zero on both sides), and the
size and date cells are special-free on both sides. -/
theorem rowHtml_counts_scrub (e : FileEntry) :
    ((rowHtml (scrubEntry e)).data.count '<' = (rowHtml e).data.count '<') ∧
      ((rowHtml (scrubEntry e)).data.count '>' = (rowHtml e).data.count '>') ∧
      ((rowHtml (scrubEntry e)).data.count '"' = (rowHtml e).data.count '"') := by
  refine ⟨?_, ?_, ?_⟩ <;>
    (unfold rowHtml scrubEntry
     cases hsz : e.size <;> cases hmd : e.modified <;>
       simp only [Option.map_none', Option.map_some', String.data_append,
         List.count_append, escapeHtml_count_lt, escapeHtml_count_gt,
         escapeHtml_count_quot, formatFileSize_count_lt, formatFileSize_count_gt,
         formatFileSize_count_quot, formatDate_count_lt, formatDate_count_gt,
         formatDate_count_quot])

theorem rowHtml_ampOk (e : FileEntry) : AmpOk (rowHtml e).data := by
  unfold rowHtml
  by_cases hty : e.type = EntryType.directory <;>
    cases hsz : e.size <;> cases hmd : e.modified <;>
      simp only [hty, if_true, if_false, String.data_append] <;>
      (repeat' apply ampOk_append) <;>
      first
        | exact ampOk_escapeHtml _
        | exact specialFree_ampOk _ (formatFileSize_specialFree _)
        | exact specialFree_ampOk _ (formatDate_specialFree _)
        | exact ampOk_of_no_amp (by decide)

theorem joinLines_cons₂ (s a : String) (r : List String) :
    joinLines (s :: a :: r) = s ++ "\n" ++ joinLines (a :: r) := rfl

/-- Scrubbing every entry leaves the markup-special counts of the
joined rows unchanged. -/
theorem rows_counts_scrub (es : List FileEntry) :
    ((joinLines ((es.map scrubEntry).map rowHtml)).data.count '<'
        = (joinLines (es.map rowHtml)).data.count '<') ∧
      ((joinLines ((es.map scrubEntry).map rowHtml)).data.count '>'
        = (joinLines (es.map rowHtml)).data.count '>') ∧
      ((joinLines ((es.map scrubEntry).map rowHtml)).data.count '"'
        = (joinLines (es.map rowHtml)).data.count '"') := by
  induction es with
  | nil => exact ⟨rfl, rfl, rfl⟩
  | cons e t ih =>
    cases t with
    | nil =>
      simpa only [List.map_cons, List.map_nil, joinLines] using rowHtml_counts_scrub e
    | cons e2 t2 =>
      obtain ⟨ih1, ih2, ih3⟩ := ih
      obtain ⟨r1, r2, r3⟩ := rowHtml_counts_scrub e
      simp only [List.map_cons] at ih1 ih2 ih3 ⊢
      rw [joinLines_cons₂, joinLines_cons₂]
      simp only [String.data_append, List.count_append]
      exact ⟨by rw [r1, ih1], by rw [r2, ih2], by rw [r3, ih3]⟩

theorem joinLines_ampOk (l : List String) (h : ∀ s ∈ l, AmpOk s.data) :
    AmpOk (joinLines l).data := by
  induction l with
  | nil => exact AmpOk.nil
  | cons s t ih =>
    cases t with
    | nil => exact h s (List.mem_cons_self s [])
    | cons s2 t2 =>
      rw [joinLines_cons₂, String.data_append, String.data_append]
      refine ampOk_append (ampOk_append ?_ (ampOk_of_no_amp (by decide))) ?_
      · exact h s (List.mem_cons_self s _)
      · exact ih fun u hu => h u (List.mem_cons_of_mem s hu)

theorem parentLinkHtml_scrub (p : String) :
    parentLinkHtml (if p = "/" then "/" else "//") = parentLinkHtml p := by
  by_cases h : p = "/"
  · simp [h]
  · have h2 : ("//" : String) ≠ "/" := by decide
    simp [h, parentLinkHtml, h2]

theorem parentLinkHtml_ampOk (p : String) : AmpOk (parentLinkHtml p).data := by
  unfold parentLinkHtml
  split
  · exact ampOk_of_no_amp (by set_option maxRecDepth 20000 in decide)
  · exact AmpOk.nil


/-- Bridge from the executable ampersand check to the membership form
(the Boolean form evaluates with shallow recursion on long literals). -/
theorem no_amp_of_allB {l : List Char}
    (h : (l.all fun c => !(c == '&')) = true) : ∀ c ∈ l, c ≠ '&' := by
  rw [List.all_eq_true] at h
  intro c hc he
  have hx := h c hc
  subst he
  simp at hx

/-- C4: every piece of user-controlled text inserted into the generated
HTML — entry names, link targets, the stylesheet URL, and the title
(which embeds the index path) — passes through `escapeHtml`, which
replaces `&`, `<`, `>` and `"`. Consequently (first two parts) escaped
text contains no raw `<`, `>` or `"` at all and every `&` in it begins
an entity; and (third part) the counts of `<`, `>` and `"` in the whole
emitted document are unchanged when every user-controlled string is
replaced by content-free text — the markup specials all come from the
fixed template, none from user input — while every ampersand of the
document begins an entity. -/
theorem c4_user_text_escaped :
    (escapeHtml "&<>\"" = "&amp;&lt;&gt;&quot;") ∧
      (∀ s : String,
        (escapeHtml s).data.count '<' = 0 ∧
          (escapeHtml s).data.count '>' = 0 ∧
          (escapeHtml s).data.count '"' = 0 ∧ AmpOk (escapeHtml s).data) ∧
      (∀ (idx : DirectoryIndex) (st tt : String),
        ((generateHtml idx st tt).data.count '<'
            = (generateHtml (scrubIndex idx) (scrubStr st) "").data.count '<') ∧
          ((generateHtml idx st tt).data.count '>'
            = (generateHtml (scrubIndex idx) (scrubStr st) "").data.count '>') ∧
          ((generateHtml idx st tt).data.count '"'
            = (generateHtml (scrubIndex idx) (scrubStr st) "").data.count '"') ∧
          AmpOk (generateHtml idx st tt).data) := by
  refine ⟨by decide,
    fun s => ⟨escapeHtml_count_lt s, escapeHtml_count_gt s,
      escapeHtml_count_quot s, ampOk_escapeHtml s⟩,
    fun idx st tt => ?_⟩
  have hrows : AmpOk (joinLines (idx.entries.map rowHtml)).data := by
    refine joinLines_ampOk _ ?_
    intro s hs
    obtain ⟨e, _, he⟩ := List.mem_map.mp hs
    rw [← he]
    exact rowHtml_ampOk e
  obtain ⟨hr1, hr2, hr3⟩ := rows_counts_scrub idx.entries
  refine ⟨?_, ?_, ?_, ?_⟩
  · by_cases hst : st = "" <;>
      simp only [generateHtml, scrubIndex, scrubStr, hst, if_true, if_false,
        ne_eq, not_true, not_false_iff, ite_true, ite_false,
        parentLinkHtml_scrub, String.data_append, List.count_append,
        escapeHtml_count_lt, formatDate_count_lt, hr1,
        show ("x" : String) ≠ "" from by decide]
  · by_cases hst : st = "" <;>
      simp only [generateHtml, scrubIndex, scrubStr, hst, if_true, if_false,
        ne_eq, not_true, not_false_iff, ite_true, ite_false,
        parentLinkHtml_scrub, String.data_append, List.count_append,
        escapeHtml_count_gt, formatDate_count_gt, hr2,
        show ("x" : String) ≠ "" from by decide]
  · by_cases hst : st = "" <;>
      simp only [generateHtml, scrubIndex, scrubStr, hst, if_true, if_false,
        ne_eq, not_true, not_false_iff, ite_true, ite_false,
        parentLinkHtml_scrub, String.data_append, List.count_append,
        escapeHtml_count_quot, formatDate_count_quot, hr3,
        show ("x" : String) ≠ "" from by decide]
  · by_cases hst : st = "" <;>
      simp only [generateHtml, hst, ne_eq, not_true, not_false_iff, ite_true,
        ite_false, String.data_append] <;>
      (repeat' apply ampOk_append) <;>
      first
        | exact ampOk_escapeHtml _
        | exact parentLinkHtml_ampOk _
        | exact hrows
        | exact specialFree_ampOk _ (formatDate_specialFree _)
        | exact ampOk_of_no_amp (no_amp_of_allB
            (by set_option maxRecDepth 4000 in rfl))
